import Mathlib

/-!
Verification of the Kliply clipboard manager (Digital-Defiance/clipjoy).

This file gives a shallow embedding of the parts of the Python source that
the specification's claims are about:

* src/Kliply/models.py          (ContentType, ClipboardContent, get_hash)
* src/Kliply/history_manager.py (HistoryManager: add_item, get_history,
                                 set_max_depth, clear_history, get_item)
* src/Kliply/clipboard_monitor.py (ClipboardMonitor: _extract_content,
                                 _estimate_content_size, _on_clipboard_change)
* src/Kliply/main_application.py (permission monitoring state machine)

Python deques with a maxlen bound are embedded as Lists whose front is the
left end of the deque; datetimes are embedded as Nat timestamps; SHA-256 is
embedded injectively as the byte string that the code feeds to the digest
(two payloads collide in the model exactly when the digested bytes are
equal, which is the standard collision-free reading of the hash).
-/

namespace Kliply

/-- models.py ContentType: enumeration of supported clipboard content types. -/
inductive ContentType where
  | TEXT
  | IMAGE
  | RICH_TEXT
  | UNSUPPORTED
deriving DecidableEq, Repr

/-- The payload of a clipboard item: Python `Union[str, bytes]`
(`str` for text-like content, `bytes` for images). -/
inductive CData where
  | ofString (s : String)
  | ofBytes (b : List Nat)
deriving DecidableEq, Repr

/-- UTF-8 encoding of a single Unicode code point, as produced by Python
`str.encode("utf-8")` for that character. -/
def utf8EncodeCodepoint (c : Nat) : List Nat :=
  if c < 0x80 then [c]
  else if c < 0x800 then [0xC0 ||| (c >>> 6), 0x80 ||| (c &&& 0x3F)]
  else if c < 0x10000 then
    [0xE0 ||| (c >>> 12), 0x80 ||| ((c >>> 6) &&& 0x3F), 0x80 ||| (c &&& 0x3F)]
  else
    [0xF0 ||| (c >>> 18), 0x80 ||| ((c >>> 12) &&& 0x3F),
     0x80 ||| ((c >>> 6) &&& 0x3F), 0x80 ||| (c &&& 0x3F)]

/-- UTF-8 encoding of a whole string (Python `s.encode("utf-8")`). -/
def utf8Bytes (s : String) : List Nat :=
  s.data.foldr (fun c acc => utf8EncodeCodepoint c.toNat ++ acc) []

/-- The byte string that models.py get_hash feeds to hashlib.sha256:
the UTF-8 encoding for `str` data, the raw bytes for `bytes` data. -/
def CData.encode : CData → List Nat
  | CData.ofString s => utf8Bytes s
  | CData.ofBytes b => b

/-- models.py ClipboardContent (the fields the claims depend on; `preview`
and `size_bytes` are derived display metadata and are not used by any
operation under verification). -/
structure ClipboardContent where
  content_type : ContentType
  data : CData
  timestamp : Nat
deriving DecidableEq, Repr

/-- models.py ClipboardContent.get_hash: SHA-256 of the content bytes,
embedded injectively as the digested byte string itself.  The timestamp and
the content type are not part of the digest, exactly as in the source. -/
def ClipboardContent.get_hash (c : ClipboardContent) : List Nat :=
  c.data.encode

/-- Python `deque(iterable, maxlen=m)`: when the iterable is longer than
`m`, only the last `m` items are kept (items are discarded from the left as
later ones are appended on the right).  Front of the list = left end. -/
def dequeOf (l : List ClipboardContent) (maxlen : Nat) : List ClipboardContent :=
  l.drop (l.length - maxlen)

/-- Python `deque.appendleft` on a deque bounded by `maxlen`: the new item
goes to the left end and, if the deque was full, one item falls off the
right end.  For lists of length at most `maxlen` this is exactly
`take maxlen (x :: l)`. -/
def dequeAppendLeft (maxlen : Nat) (x : ClipboardContent) (l : List ClipboardContent) :
    List ClipboardContent :=
  (x :: l).take maxlen

/-- history_manager.py HistoryManager: the in-memory clipboard history.
The deque is a List with the most recent entry first. -/
structure HistoryManager where
  max_depth : Nat
  history : List ClipboardContent
deriving DecidableEq, Repr

/-- HistoryManager.__init__(max_depth): empty bounded deque. -/
def HistoryManager.init (max_depth : Nat) : HistoryManager :=
  { max_depth := max_depth, history := [] }

/-- history_manager.py add_item: find the first entry whose hash equals the
new content's hash; if found, pop it and rebuild the deque; then appendleft
the new content (evicting from the right if the deque is full). -/
def HistoryManager.add_item (hm : HistoryManager) (content : ClipboardContent) :
    HistoryManager :=
  let content_hash := content.get_hash
  let temp :=
    if hm.history.any (fun item => item.get_hash = content_hash) then
      dequeOf (hm.history.eraseP (fun item => item.get_hash = content_hash)) hm.max_depth
    else
      hm.history
  { hm with history := dequeAppendLeft hm.max_depth content temp }

/-- history_manager.py get_history: the current history, most recent first. -/
def HistoryManager.get_history (hm : HistoryManager) : List ClipboardContent :=
  hm.history

/-- history_manager.py set_max_depth: update the bound; if the history is
longer than the new bound, keep only the `depth` most recent entries
(`list(self._history)[:depth]`), otherwise just rebuild with the new
maxlen. -/
def HistoryManager.set_max_depth (hm : HistoryManager) (depth : Nat) : HistoryManager :=
  if hm.history.length > depth then
    { max_depth := depth, history := dequeOf (hm.history.take depth) depth }
  else
    { max_depth := depth, history := dequeOf hm.history depth }

/-- history_manager.py clear_history. -/
def HistoryManager.clear_history (hm : HistoryManager) : HistoryManager :=
  { hm with history := [] }

/-- history_manager.py get_item: the entry at `index` when
`0 <= index < len(self._history)`, None otherwise (indices are Python ints,
so negative values are possible and must return None). -/
def HistoryManager.get_item (hm : HistoryManager) (index : Int) : Option ClipboardContent :=
  if 0 ≤ index ∧ index < (hm.history.length : Int) then
    hm.history.get? index.toNat
  else
    none

/-- Run a sequence of add_item operations from the empty store with
max depth `k`. -/
def runOps (k : Nat) (ops : List ClipboardContent) : HistoryManager :=
  ops.foldl HistoryManager.add_item (HistoryManager.init k)

/-- The invariant the Python object maintains by construction: the deque
never holds more than max_depth items, and no two entries share a hash. -/
def HistoryManager.Inv (hm : HistoryManager) : Prop :=
  hm.history.length ≤ hm.max_depth ∧ (hm.history.map ClipboardContent.get_hash).Nodup

/-- A small text entry used to instantiate the theorems on concrete data. -/
def sampleA : ClipboardContent := ⟨ContentType.TEXT, CData.ofString "a", 0⟩

/-- A second small text entry with a different payload. -/
def sampleB : ClipboardContent := ⟨ContentType.TEXT, CData.ofString "b", 1⟩

/-- The payload of sampleA captured again at a later timestamp. -/
def sampleA2 : ClipboardContent := ⟨ContentType.TEXT, CData.ofString "a", 5⟩

/-- A concrete two-entry store (most recent first) with room to spare. -/
def hmPromote : HistoryManager := { max_depth := 5, history := [sampleB, sampleA] }

/-- The strengthened invariant carried through a run of add_item
operations from the empty store: `seen` is the set of fingerprints
inserted so far.  While the store is not full every inserted fingerprint
is still present, which is what makes the final length exactly
min k (number of distinct fingerprints). -/
def RunInv (k : Nat) (s : HistoryManager) (seen : Finset (List Nat)) : Prop :=
  s.max_depth = k ∧
  s.history.length = min k seen.card ∧
  (s.history.map ClipboardContent.get_hash).Nodup ∧
  (∀ h ∈ s.history.map ClipboardContent.get_hash, h ∈ seen) ∧
  (s.history.length < k → ∀ h ∈ seen, h ∈ s.history.map ClipboardContent.get_hash)

/-- clipboard_monitor.py MAX_CONTENT_SIZE_BYTES: 10 MiB ceiling. -/
def MAX_CONTENT_SIZE_BYTES : Nat := 10 * 1024 * 1024

/-- The clipboard state the monitor observes through QMimeData.  The image
object returned by imageData() is embedded as the outcome of converting it
to PNG bytes: ok with the bytes when the conversion succeeds, error when it
raises; `none` models imageData() returning None. -/
structure MimeData where
  hasImage : Bool
  imageData : Option (Except Unit (List Nat))
  hasHtml : Bool
  html : String
  hasText : Bool
  text : String

/-- clipboard_monitor.py _extract_content, lines 188-202: the HTML check,
then the plain-text check, then the unsupported fallback (reached only when
the image branch did not return). -/
def extractTextual (m : MimeData) : Option (ContentType × CData) :=
  if m.hasHtml ∧ m.html ≠ "" then some (ContentType.RICH_TEXT, CData.ofString m.html)
  else if m.hasText ∧ m.text ≠ "" then some (ContentType.TEXT, CData.ofString m.text)
  else some (ContentType.UNSUPPORTED, CData.ofString "[Unsupported Content]")

/-- clipboard_monitor.py _extract_content: image first; when the image
conversion raises, the exception is caught and (None, None) is returned;
when imageData() is None, control falls through to the textual checks. -/
def extract_content (m : MimeData) : Option (ContentType × CData) :=
  if m.hasImage then
    match m.imageData with
    | some (Except.ok bytes) => some (ContentType.IMAGE, CData.ofBytes bytes)
    | some (Except.error _) => none
    | none => extractTextual m
  else extractTextual m

/-- clipboard_monitor.py _estimate_content_size: length of the bytes for
images, length of the UTF-8 encoding for text-like strings, 0 otherwise. -/
def estimate_content_size (content_type : ContentType) (data : CData) : Nat :=
  match content_type, data with
  | ContentType.IMAGE, CData.ofBytes b => b.length
  | ContentType.IMAGE, CData.ofString _ => 0
  | ContentType.TEXT, CData.ofString s => (utf8Bytes s).length
  | ContentType.TEXT, CData.ofBytes _ => 0
  | ContentType.RICH_TEXT, CData.ofString s => (utf8Bytes s).length
  | ContentType.RICH_TEXT, CData.ofBytes _ => 0
  | ContentType.UNSUPPORTED, _ => 0

/-- The monitor's mutable state: the hash of the last processed clipboard
content and the history manager it feeds.  `accepted` instruments the
number of add_item calls made so far. -/
structure WatcherState where
  last_hash : Option (List Nat)
  hist : HistoryManager
  accepted : Nat
deriving DecidableEq, Repr

/-- clipboard_monitor.py _on_clipboard_change for a notification carrying
mime data `m` at time `now`: extract (drop the notification when extraction
yields nothing), drop oversized content, drop content whose hash equals the
last processed hash, otherwise record the hash and add to history. -/
def on_clipboard_change (ws : WatcherState) (m : MimeData) (now : Nat) : WatcherState :=
  match extract_content m with
  | none => ws
  | some (content_type, data) =>
    let content_size := estimate_content_size content_type data
    if content_size > MAX_CONTENT_SIZE_BYTES then ws
    else
      let content : ClipboardContent := ⟨content_type, data, now⟩
      let current_hash := content.get_hash
      if some current_hash = ws.last_hash then ws
      else
        { last_hash := some current_hash,
          hist := ws.hist.add_item content,
          accepted := ws.accepted + 1 }

/-- The fingerprint of the content a notification carries, when extraction
yields content. -/
def extractedHash (m : MimeData) : Option (List Nat) :=
  (extract_content m).map (fun td => td.2.encode)

/-- A notification whose image conversion raises, while HTML and plain text
are available on the same mime data. -/
def badImageMime : MimeData :=
  { hasImage := true, imageData := some (Except.error ()),
    hasHtml := true, html := "<b>hi</b>", hasText := true, text := "hi" }

/-- A fresh watcher over an empty store of depth 10. -/
def wsEmpty : WatcherState :=
  { last_hash := none, hist := HistoryManager.init 10, accepted := 0 }

/-- A plain-text notification with payload "hi". -/
def mimeHi : MimeData :=
  { hasImage := false, imageData := none, hasHtml := false, html := "",
    hasText := true, text := "hi" }

/-- An image notification whose PNG payload is one byte over the ceiling. -/
def bigMime : MimeData :=
  { hasImage := true, imageData := some (Except.ok (List.replicate 10485761 0)),
    hasHtml := false, html := "", hasText := false, text := "" }

/-- main_application.py permission-monitoring state: the fields read and
written by _check_permission_revocation, _handle_permission_loss,
_check_permission_status and _start_permission_monitoring. -/
structure PermState where
  monitoring_active : Bool
  check_count : Nat
  max_checks : Nat
  initial_state : Bool
  last_state : Bool
  revocation_notified : Bool
  hotkey_registered : Bool
deriving DecidableEq, Repr

/-- The user-facing events one permission tick can emit: the
permission-revoked dialog and the restart-required dialog. -/
structure PermEvents where
  revocation_dialog : Bool
  restart_dialog : Bool
deriving DecidableEq, Repr

/-- main_application.py _start_permission_monitoring; `cap` is the value
check_accessibility_permission() returns during the call (recorded as the
initial permission state). -/
def start_permission_monitoring (cap : Bool) (s : PermState) : PermState :=
  if s.monitoring_active then s
  else
    { s with initial_state := cap, check_count := 0, max_checks := 30,
             monitoring_active := true, last_state := cap }

/-- main_application.py _handle_permission_loss: record the loss, disable
the hotkey, show the revocation dialog only when not yet notified, and
begin active monitoring when it is not already running. -/
def handle_permission_loss (cap : Bool) (s : PermState) : PermState × PermEvents :=
  let s1 := { s with last_state := false, hotkey_registered := false }
  let dialog : Bool := !s1.revocation_notified
  let s2 := if s1.revocation_notified then s1 else { s1 with revocation_notified := true }
  let s3 := if s2.monitoring_active then s2 else start_permission_monitoring cap s2
  (s3, { revocation_dialog := dialog, restart_dialog := false })

/-- main_application.py _check_permission_revocation: the passive check run
while active monitoring is off. -/
def check_permission_revocation (cap : Bool) (s : PermState) : PermState × PermEvents :=
  if cap then
    ({ s with last_state := true, revocation_notified := false },
     { revocation_dialog := false, restart_dialog := false })
  else if s.last_state then
    handle_permission_loss cap s
  else
    ({ s with last_state := false },
     { revocation_dialog := false, restart_dialog := false })

/-- main_application.py _check_permission_status: the active-polling check:
bump the counter, record the observed state, stop with the restart dialog
on a grant after an initially-denied start, stop silently once the attempt
budget is spent. -/
def check_permission_status (cap : Bool) (s : PermState) : PermState × PermEvents :=
  let s1 := { s with check_count := s.check_count + 1 }
  let s2 := { s1 with last_state := cap,
                      revocation_notified := if cap then false else s1.revocation_notified }
  if cap && !s2.initial_state then
    ({ s2 with monitoring_active := false },
     { revocation_dialog := false, restart_dialog := true })
  else if s2.max_checks ≤ s2.check_count then
    ({ s2 with monitoring_active := false },
     { revocation_dialog := false, restart_dialog := false })
  else
    (s2, { revocation_dialog := false, restart_dialog := false })

/-- main_application.py _on_timer_tick, restricted to the ticks on which a
permission check actually runs: active monitoring polls the status, the
passive mode checks for revocation. -/
def permission_tick (cap : Bool) (s : PermState) : PermState × PermEvents :=
  if s.monitoring_active then check_permission_status cap s
  else check_permission_revocation cap s

/-- Run the permission ticks over a list of observed capability values,
collecting the emitted events. -/
def runTicks (s : PermState) (caps : List Bool) : PermState × List PermEvents :=
  match caps with
  | [] => (s, [])
  | cap :: rest =>
    let step := permission_tick cap s
    let next := runTicks step.1 rest
    (next.1, step.2 :: next.2)

/-- The number of ticks of a run on which active monitoring performed a
capability check. -/
def activeTickCount (s : PermState) (caps : List Bool) : Nat :=
  match caps with
  | [] => 0
  | cap :: rest =>
    (if s.monitoring_active then 1 else 0) +
      activeTickCount (permission_tick cap s).1 rest

/-- A concrete steady state: capability granted, no active monitoring. -/
def permIdle : PermState :=
  { monitoring_active := false, check_count := 0, max_checks := 0,
    initial_state := true, last_state := true, revocation_notified := false,
    hotkey_registered := true }

/-- What removing the first entry with a given hash does to the hash list,
when the history has pairwise-distinct hashes and the hash is present:
the length drops by one, the hash is gone, every other hash survives. -/
lemma erasePHash_spec (h : List Nat) :
    ∀ (l : List ClipboardContent),
      (l.map ClipboardContent.get_hash).Nodup →
      h ∈ l.map ClipboardContent.get_hash →
      (l.eraseP (fun item => item.get_hash = h)).length + 1 = l.length ∧
      h ∉ (l.eraseP (fun item => item.get_hash = h)).map ClipboardContent.get_hash ∧
      (∀ x, x ∈ l.map ClipboardContent.get_hash → x = h ∨
        x ∈ (l.eraseP (fun item => item.get_hash = h)).map ClipboardContent.get_hash) := by
  intro l
  induction l with
  | nil => intro _ hmem; simp at hmem
  | cons a t ih =>
    intro hnd hmem
    have hpair : (∀ x ∈ t, ¬ x.get_hash = a.get_hash) ∧
        (t.map ClipboardContent.get_hash).Nodup := by simpa using hnd
    by_cases ha : a.get_hash = h
    · have herase : (a :: t).eraseP (fun item => item.get_hash = h) = t := by
        simp [List.eraseP_cons, ha]
      have hnot : h ∉ t.map ClipboardContent.get_hash := by
        intro hcon
        rcases List.mem_map.mp hcon with ⟨item, hit, hih⟩
        exact hpair.1 item hit (hih.trans ha.symm)
      refine ⟨by simp [herase], by simpa [herase] using hnot, ?_⟩
      intro x hx
      rcases (by simpa using hx : x = a.get_hash ∨ x ∈ t.map ClipboardContent.get_hash) with
        hxa | hxt
      · exact Or.inl (hxa.trans ha)
      · exact Or.inr (by simpa [herase] using hxt)
    · have herase : (a :: t).eraseP (fun item => item.get_hash = h) =
          a :: t.eraseP (fun item => item.get_hash = h) := by
        simp [List.eraseP_cons, ha]
      have hmem' : h ∈ t.map ClipboardContent.get_hash := by
        rcases (by simpa using hmem : h = a.get_hash ∨ h ∈ t.map ClipboardContent.get_hash) with
          hxa | hxt
        · exact absurd hxa.symm ha
        · exact hxt
      have hnd' : (t.map ClipboardContent.get_hash).Nodup := hpair.2
      obtain ⟨hlen, hnot, hsur⟩ := ih hnd' hmem'
      refine ⟨by simp [herase, ← hlen], ?_, ?_⟩
      · intro hcon
        rcases (by simpa [herase] using hcon :
            h = a.get_hash ∨
              h ∈ (t.eraseP (fun item => item.get_hash = h)).map ClipboardContent.get_hash) with
          hxa | hxt
        · exact ha hxa.symm
        · exact hnot hxt
      · intro x hx
        rcases (by simpa using hx : x = a.get_hash ∨ x ∈ t.map ClipboardContent.get_hash) with
          hxa | hxt
        · exact Or.inr (by simp [herase, hxa])
        · rcases hsur x hxt with hxh | hxe
          · exact Or.inl hxh
          · exact Or.inr (by simp [herase]; exact Or.inr (by simpa using hxe))

/-- When an entry with the new content's hash is already present and the
store satisfies its invariant, add_item is exactly: erase the first entry
with that hash, then cons the new content on the front (no truncation
happens, so promotion is a move and never an add-then-evict). -/
lemma add_item_promote (hm : HistoryManager) (x : ClipboardContent)
    (hinv : hm.Inv) (hmem : x.get_hash ∈ hm.history.map ClipboardContent.get_hash) :
    (hm.add_item x).history =
      x :: hm.history.eraseP (fun item => item.get_hash = x.get_hash) := by
  obtain ⟨hlen, hnd⟩ := hinv
  obtain ⟨hlen1, _, _⟩ := erasePHash_spec x.get_hash hm.history hnd hmem
  have hany : hm.history.any (fun item => item.get_hash = x.get_hash) = true := by
    rcases List.mem_map.mp hmem with ⟨item, hitem, hhash⟩
    exact List.any_eq_true.mpr ⟨item, hitem, by simp [hhash]⟩
  have hElen : (hm.history.eraseP (fun item => item.get_hash = x.get_hash)).length ≤
      hm.max_depth := by omega
  simp only [HistoryManager.add_item, hany, if_true]
  unfold dequeOf dequeAppendLeft
  rw [Nat.sub_eq_zero_of_le hElen, List.drop_zero]
  exact List.take_of_length_le (by simp; omega)

/-- When no entry with the new content's hash is present, add_item is
exactly: cons on the front and truncate to max_depth. -/
lemma add_item_fresh (hm : HistoryManager) (x : ClipboardContent)
    (hmem : x.get_hash ∉ hm.history.map ClipboardContent.get_hash) :
    (hm.add_item x).history = (x :: hm.history).take hm.max_depth := by
  have hany : hm.history.any (fun item => item.get_hash = x.get_hash) = false := by
    rw [List.any_eq_false]
    intro item hitem
    simp only [decide_eq_true_eq]
    intro hh
    exact hmem (List.mem_map.mpr ⟨item, hitem, hh⟩)
  simp only [HistoryManager.add_item, hany]
  rfl

/-- add_item never changes max_depth. -/
lemma add_item_max_depth (hm : HistoryManager) (x : ClipboardContent) :
    (hm.add_item x).max_depth = hm.max_depth := rfl

/-- Every entry of the history after add_item is the new content or an old
entry. -/
lemma mem_add_item (hm : HistoryManager) (x c : ClipboardContent)
    (hc : c ∈ (hm.add_item x).history) : c = x ∨ c ∈ hm.history := by
  simp only [HistoryManager.add_item, dequeAppendLeft, dequeOf] at hc
  have hc' := List.mem_of_mem_take hc
  rcases List.mem_cons.mp hc' with h | h
  · exact Or.inl h
  · right
    by_cases hany : hm.history.any (fun item => item.get_hash = x.get_hash) = true
    · simp only [hany, if_true] at h
      exact (List.eraseP_sublist hm.history).mem (List.mem_of_mem_drop h)
    · simp only [hany, if_false] at h
      simpa using h

/-- Promotion characterised: head is the new entry object, length is
unchanged, the fingerprint occurs exactly once.  Shared by the dedup and
the hash-collision theorems. -/
lemma add_item_promote_spec (hm : HistoryManager) (x : ClipboardContent)
    (hinv : hm.Inv)
    (hmem : x.get_hash ∈ hm.history.map ClipboardContent.get_hash) :
    (hm.add_item x).get_history.head? = some x ∧
    (hm.add_item x).get_history.length = hm.get_history.length ∧
    ((hm.add_item x).get_history.map ClipboardContent.get_hash).count x.get_hash = 1 := by
  obtain ⟨hlen, hnd⟩ := hinv
  obtain ⟨hlen1, hnot, _⟩ := erasePHash_spec x.get_hash hm.history hnd hmem
  have hp := add_item_promote hm x ⟨hlen, hnd⟩ hmem
  unfold HistoryManager.get_history
  rw [hp]
  refine ⟨rfl, by simp; omega, ?_⟩
  have hzero : ((hm.history.eraseP
      (fun item => item.get_hash = x.get_hash)).map ClipboardContent.get_hash).count
        x.get_hash = 0 :=
    List.count_eq_zero.mpr hnot
  simp [List.count_cons, hzero]

/-- C1: if add_item is called with an entry X whose fingerprint already
occurs in the store, then afterward position 0 holds the newly passed entry
object itself, the total count is unchanged, and X's fingerprint occurs
exactly once in the sequence — promotion is a move, never an
add-then-evict. -/
theorem dedup_promotion (hm : HistoryManager) (x : ClipboardContent)
    (hinv : hm.Inv)
    (hmem : x.get_hash ∈ hm.history.map ClipboardContent.get_hash) :
    (hm.add_item x).get_history.head? = some x ∧
    (hm.add_item x).get_history.length = hm.get_history.length ∧
    ((hm.add_item x).get_history.map ClipboardContent.get_hash).count x.get_hash = 1 :=
  add_item_promote_spec hm x hinv hmem

/-- C1 witness: re-adding the payload of the oldest entry in a concrete
two-entry store promotes it to the front without changing the count. -/
theorem dedup_promotion_witness :
    (hmPromote.add_item sampleA2).get_history.head? = some sampleA2 ∧
    (hmPromote.add_item sampleA2).get_history.length = hmPromote.get_history.length ∧
    ((hmPromote.add_item sampleA2).get_history.map ClipboardContent.get_hash).count
      sampleA2.get_hash = 1 :=
  dedup_promotion hmPromote sampleA2 ⟨by decide, by decide⟩ (by decide)

/-- C5: shrinking the capacity below the current length synchronously
leaves exactly the newDepth most-recent entries in the same relative order
and updates max_depth. -/
theorem immediate_capacity_shrink (hm : HistoryManager) (newDepth : Nat)
    (h : newDepth < hm.get_history.length) :
    (hm.set_max_depth newDepth).get_history = hm.get_history.take newDepth ∧
    (hm.set_max_depth newDepth).get_history.length = newDepth ∧
    (hm.set_max_depth newDepth).max_depth = newDepth := by
  unfold HistoryManager.get_history at h ⊢
  unfold HistoryManager.set_max_depth
  rw [if_pos h]
  have hlen : (hm.history.take newDepth).length = newDepth := by
    simp [List.length_take]; omega
  unfold dequeOf
  rw [hlen, Nat.sub_self, List.drop_zero]
  exact ⟨rfl, hlen, rfl⟩

/-- C5 witness: shrinking the concrete two-entry store to capacity 1 keeps
exactly the most recent entry. -/
theorem immediate_capacity_shrink_witness :
    (hmPromote.set_max_depth 1).get_history = hmPromote.get_history.take 1 ∧
    (hmPromote.set_max_depth 1).get_history.length = 1 ∧
    (hmPromote.set_max_depth 1).max_depth = 1 :=
  immediate_capacity_shrink hmPromote 1 (by decide)

/-- C9: get_item returns the entry at the position for every in-range
index and returns None - never an error - for every out-of-range index,
including negative ones. -/
theorem item_at_total (hm : HistoryManager) (index : Int) :
    (∀ (_ : 0 ≤ index) (_ : index < (hm.get_history.length : Int)),
      hm.get_item index = hm.get_history.get? index.toNat ∧
        (hm.get_item index).isSome = true) ∧
    ((index < 0 ∨ (hm.get_history.length : Int) ≤ index) → hm.get_item index = none) := by
  constructor
  · intro h0 hlt
    unfold HistoryManager.get_history at hlt ⊢
    unfold HistoryManager.get_item
    rw [if_pos ⟨h0, hlt⟩]
    have hn : index.toNat < hm.history.length := by omega
    rw [List.get?_eq_get hn]
    exact ⟨rfl, rfl⟩
  · intro h
    unfold HistoryManager.get_history at h
    unfold HistoryManager.get_item
    rw [if_neg]
    rintro ⟨h0, hlt⟩
    rcases h with h | h <;> omega

/-- The run invariant holds for the empty store. -/
lemma runInv_init (k : Nat) : RunInv k (HistoryManager.init k) ∅ := by
  refine ⟨rfl, by simp [HistoryManager.init], by simp [HistoryManager.init], ?_, ?_⟩ <;>
    simp [HistoryManager.init]

/-- One add_item step preserves the run invariant. -/
lemma runInv_add (k : Nat) (s : HistoryManager) (seen : Finset (List Nat))
    (c : ClipboardContent) (hinv : RunInv k s seen) :
    RunInv k (s.add_item c) (insert c.get_hash seen) := by
  obtain ⟨hk, hlen, hnd, hsub, hfull⟩ := hinv
  have hlenk : s.history.length ≤ k := by omega
  have hk' : (s.add_item c).max_depth = k := by rw [add_item_max_depth, hk]
  by_cases hmem : c.get_hash ∈ s.history.map ClipboardContent.get_hash
  · -- the fingerprint is already present: promotion
    obtain ⟨hlen1, hnot, hsur⟩ := erasePHash_spec c.get_hash s.history hnd hmem
    have hp := add_item_promote s c ⟨by omega, hnd⟩ hmem
    have hEnd : ((s.history.eraseP
        (fun item => item.get_hash = c.get_hash)).map ClipboardContent.get_hash).Nodup :=
      (hnd.sublist ((List.eraseP_sublist s.history).map ClipboardContent.get_hash))
    have hseenc : c.get_hash ∈ seen := hsub _ hmem
    have hins : insert c.get_hash seen = seen := Finset.insert_eq_self.mpr hseenc
    refine ⟨hk', ?_, ?_, ?_, ?_⟩
    · rw [hp, hins]; simp; omega
    · rw [hp]
      simp only [List.map_cons, List.nodup_cons]
      exact ⟨hnot, hEnd⟩
    · intro x hx
      rw [hp] at hx
      simp only [List.map_cons, List.mem_cons] at hx
      rcases hx with hx | hx
      · simp [hx]
      · exact Finset.mem_insert_of_mem
          (hsub _ (((List.eraseP_sublist s.history).map ClipboardContent.get_hash).mem hx))
    · intro hlt x hx
      rw [hp] at hlt ⊢
      simp only [List.map_cons, List.mem_cons]
      rcases Finset.mem_insert.mp hx with hx | hx
      · exact Or.inl hx
      · have hlt' : s.history.length < k := by simp at hlt; omega
        rcases hsur x (hfull hlt' x hx) with hxh | hxe
        · exact Or.inl hxh
        · exact Or.inr hxe
  · -- fresh fingerprint
    have hf := add_item_fresh s c hmem
    by_cases hlt : s.history.length < k
    · have hnseen : c.get_hash ∉ seen := fun hc => hmem (hfull hlt _ hc)
      have hcard : (insert c.get_hash seen).card = seen.card + 1 :=
        Finset.card_insert_of_not_mem hnseen
      have hscard : seen.card = s.history.length := by omega
      have htake : ((c :: s.history).take s.max_depth) = c :: s.history :=
        List.take_of_length_le (by simp; omega)
      rw [htake] at hf
      refine ⟨hk', ?_, ?_, ?_, ?_⟩
      · rw [hf, hcard]; simp; omega
      · rw [hf]
        simp only [List.map_cons, List.nodup_cons]
        exact ⟨hmem, hnd⟩
      · intro x hx
        rw [hf] at hx
        simp only [List.map_cons, List.mem_cons] at hx
        rcases hx with hx | hx
        · simp [hx]
        · exact Finset.mem_insert_of_mem (hsub _ hx)
      · intro _ x hx
        rw [hf]
        simp only [List.map_cons, List.mem_cons]
        rcases Finset.mem_insert.mp hx with hx | hx
        · exact Or.inl hx
        · exact Or.inr (hfull hlt x hx)
    · -- the store is full: the oldest entry is evicted
      have hfl : s.history.length = k := by omega
      have hcardk : k ≤ seen.card := by omega
      have hcard' : k ≤ (insert c.get_hash seen).card :=
        le_trans hcardk (Finset.card_le_card (Finset.subset_insert _ _))
      have hndc : ((c :: s.history).map ClipboardContent.get_hash).Nodup := by
        simp only [List.map_cons, List.nodup_cons]
        exact ⟨hmem, hnd⟩
      refine ⟨hk', ?_, ?_, ?_, ?_⟩
      · rw [hf]; simp [hk]; omega
      · rw [hf]
        exact hndc.sublist ((List.take_sublist _ _).map ClipboardContent.get_hash)
      · intro x hx
        rw [hf] at hx
        have hx' : x ∈ (c :: s.history).map ClipboardContent.get_hash :=
          ((List.take_sublist _ _).map ClipboardContent.get_hash).mem hx
        simp only [List.map_cons, List.mem_cons] at hx'
        rcases hx' with hx' | hx'
        · simp [hx']
        · exact Finset.mem_insert_of_mem (hsub _ hx')
      · intro hlt' x hx
        rw [hf] at hlt'
        simp [hk] at hlt'
        omega

/-- The run invariant is preserved along any fold of add_item operations. -/
lemma runInv_foldl (k : Nat) :
    ∀ (ops : List ClipboardContent) (s : HistoryManager) (seen : Finset (List Nat)),
      RunInv k s seen →
      RunInv k (ops.foldl HistoryManager.add_item s)
        (seen ∪ (ops.map ClipboardContent.get_hash).toFinset) := by
  intro ops
  induction ops with
  | nil => intro s seen h; simpa using h
  | cons c rest ih =>
    intro s seen h
    have hstep := ih (s.add_item c) (insert c.get_hash seen) (runInv_add k s seen c h)
    have hset : insert c.get_hash seen ∪ (rest.map ClipboardContent.get_hash).toFinset =
        seen ∪ ((c :: rest).map ClipboardContent.get_hash).toFinset := by
      simp only [List.map_cons, List.toFinset_cons, Finset.insert_union, Finset.union_insert]
    rw [List.foldl_cons, ← hset]
    exact hstep

/-- C2: starting from the empty store with maxDepth k, the history length
never exceeds k at any intermediate point of a sequence of add_item
operations, and after all operations it equals
min k (number of distinct fingerprints inserted). -/
theorem depth_bound (k : Nat) (ops : List ClipboardContent) :
    (∀ n : Nat, (runOps k (ops.take n)).get_history.length ≤ k) ∧
    (runOps k ops).get_history.length =
      min k ((ops.map ClipboardContent.get_hash).toFinset.card) := by
  have main : ∀ l : List ClipboardContent, (runOps k l).get_history.length =
      min k ((l.map ClipboardContent.get_hash).toFinset.card) := by
    intro l
    have h := runInv_foldl k l (HistoryManager.init k) ∅ (runInv_init k)
    have h2 := h.2.1
    rw [Finset.empty_union] at h2
    exact h2
  refine ⟨fun n => ?_, main ops⟩
  rw [main (ops.take n)]
  omega

/-- C9 witness: on the concrete store, index 0 returns the most recent
entry and index -1 returns None. -/
theorem item_at_total_witness :
    hmPromote.get_item 0 = hmPromote.get_history.get? 0 ∧
    hmPromote.get_item (-1) = none :=
  ⟨((item_at_total hmPromote 0).1 (by decide) (by decide)).1,
   (item_at_total hmPromote (-1)).2 (Or.inl (by decide))⟩

/-- A notification from which nothing can be extracted changes nothing. -/
lemma on_clipboard_change_none (ws : WatcherState) (m : MimeData) (now : Nat)
    (hE : extract_content m = none) : on_clipboard_change ws m now = ws := by
  unfold on_clipboard_change
  rw [hE]

/-- The watcher step with the extraction result made explicit. -/
lemma on_clipboard_change_some (ws : WatcherState) (m : MimeData) (now : Nat)
    (ty : ContentType) (d : CData) (hE : extract_content m = some (ty, d)) :
    on_clipboard_change ws m now =
      if estimate_content_size ty d > MAX_CONTENT_SIZE_BYTES then ws
      else if some (ClipboardContent.mk ty d now).get_hash = ws.last_hash then ws
      else
        { last_hash := some (ClipboardContent.mk ty d now).get_hash,
          hist := ws.hist.add_item (ClipboardContent.mk ty d now),
          accepted := ws.accepted + 1 } := by
  unfold on_clipboard_change
  rw [hE]

/-- C4 counterexample: on a notification whose image conversion raises
while rich text is present on the same mime data, extraction returns no
content at all instead of falling through to the rich-text check (which
would have produced the RICH_TEXT content), and the whole notification is
dropped. -/
theorem extraction_fallthrough_cex :
    extract_content badImageMime = none ∧
    extractTextual badImageMime = some (ContentType.RICH_TEXT, CData.ofString "<b>hi</b>") ∧
    extract_content badImageMime ≠ extractTextual badImageMime ∧
    on_clipboard_change wsEmpty badImageMime 0 = wsEmpty := by
  refine ⟨rfl, by decide, by decide, rfl⟩

/-- C4 amended: when the image-conversion branch raises, the exception is
caught locally and the whole extraction returns no content, so the
notification is dropped without touching the store and the monitor keeps
running; extraction falls through to the rich-text and plain-text checks
only when no image is present or the image object is None. -/
theorem extraction_failure_amended (m : MimeData) (e : Unit)
    (hImg : m.hasImage = true) (hErr : m.imageData = some (Except.error e)) :
    extract_content m = none ∧
    (∀ (ws : WatcherState) (t : Nat), on_clipboard_change ws m t = ws) ∧
    (∀ m2 : MimeData, m2.hasImage = false → extract_content m2 = extractTextual m2) ∧
    (∀ m2 : MimeData, m2.hasImage = true → m2.imageData = none →
      extract_content m2 = extractTextual m2) := by
  have hnone : extract_content m = none := by
    unfold extract_content
    rw [hImg, hErr]
    simp
  refine ⟨hnone, ?_, ?_, ?_⟩
  · intro ws t
    unfold on_clipboard_change
    rw [hnone]
  · intro m2 h2
    unfold extract_content
    rw [h2]
    simp
  · intro m2 h2 h3
    unfold extract_content
    rw [h2, h3]
    simp

/-- C4 amended witness: the concrete failing-image notification is dropped
whole and leaves the fresh watcher untouched. -/
theorem extraction_failure_amended_witness :
    extract_content badImageMime = none ∧
    on_clipboard_change wsEmpty badImageMime 0 = wsEmpty :=
  ⟨(extraction_failure_amended badImageMime () rfl rfl).1,
   (extraction_failure_amended badImageMime () rfl rfl).2.1 wsEmpty 0⟩

/-- The estimated size of every payload the textual extraction branches can
produce is either the payload's digested length, or 0 with digested length
21 (the constant unsupported-content marker). -/
lemma extractTextual_size (m : MimeData) (ty : ContentType) (d : CData)
    (h : extractTextual m = some (ty, d)) :
    estimate_content_size ty d = d.encode.length ∨
    (estimate_content_size ty d = 0 ∧ d.encode.length = 21) := by
  unfold extractTextual at h
  split at h
  · obtain ⟨h1, h2⟩ := Prod.mk.injEq .. ▸ Option.some.inj h
    subst h1; subst h2
    exact Or.inl rfl
  · split at h
    · obtain ⟨h1, h2⟩ := Prod.mk.injEq .. ▸ Option.some.inj h
      subst h1; subst h2
      exact Or.inl rfl
    · obtain ⟨h1, h2⟩ := Prod.mk.injEq .. ▸ Option.some.inj h
      subst h1; subst h2
      exact Or.inr ⟨rfl, by decide⟩

/-- Same accounting for the full extraction: images report their exact byte
length, text-like payloads their UTF-8 length, the unsupported marker 0. -/
lemma extract_content_size (m : MimeData) (ty : ContentType) (d : CData)
    (h : extract_content m = some (ty, d)) :
    estimate_content_size ty d = d.encode.length ∨
    (estimate_content_size ty d = 0 ∧ d.encode.length = 21) := by
  unfold extract_content at h
  split at h
  · split at h
    · obtain ⟨h1, h2⟩ := Prod.mk.injEq .. ▸ Option.some.inj h
      subst h1; subst h2
      exact Or.inl rfl
    · exact absurd h (by simp)
    · exact extractTextual_size m ty d h
  · exact extractTextual_size m ty d h

/-- C6: for two consecutive notifications carrying content with equal
fingerprints, the second is a complete no-op — the watcher state is
unchanged, so no entry is constructed and the store is not called — and
feeding the same content twice yields exactly one accepted entry. -/
theorem adjacent_duplicate_suppression (ws : WatcherState) (m1 m2 : MimeData)
    (t1 t2 : Nat) (h : List Nat)
    (h1 : extractedHash m1 = some h) (h2 : extractedHash m2 = some h) :
    on_clipboard_change (on_clipboard_change ws m1 t1) m2 t2 =
      on_clipboard_change ws m1 t1 ∧
    ((on_clipboard_change ws m1 t1).accepted = ws.accepted + 1 →
      (on_clipboard_change (on_clipboard_change ws m1 t1) m2 t2).accepted =
        ws.accepted + 1) := by
  suffices hmain : on_clipboard_change (on_clipboard_change ws m1 t1) m2 t2 =
      on_clipboard_change ws m1 t1 by
    exact ⟨hmain, fun ha => by rw [hmain]; exact ha⟩
  unfold extractedHash at h1 h2
  cases hE1 : extract_content m1 with
  | none => rw [hE1] at h1; simp at h1
  | some td1 =>
    cases hE2 : extract_content m2 with
    | none => rw [hE2] at h2; simp at h2
    | some td2 =>
      obtain ⟨ty1, d1⟩ := td1
      obtain ⟨ty2, d2⟩ := td2
      rw [hE1] at h1
      rw [hE2] at h2
      simp only [Option.map_some', Option.some.injEq] at h1 h2
      by_cases hs2 : estimate_content_size ty2 d2 > MAX_CONTENT_SIZE_BYTES
      · rw [on_clipboard_change_some _ m2 t2 ty2 d2 hE2, if_pos hs2]
      · have hsz1 := extract_content_size m1 ty1 d1 hE1
        have hsz2 := extract_content_size m2 ty2 d2 hE2
        have hs1 : ¬ estimate_content_size ty1 d1 > MAX_CONTENT_SIZE_BYTES := by
          rw [h1] at hsz1
          rw [h2] at hsz2
          rcases hsz1 with hA | ⟨hA, _⟩
          · rcases hsz2 with hB | ⟨hB, hL2⟩
            · rw [hA, ← hB]; exact hs2
            · rw [hA, hL2]; unfold MAX_CONTENT_SIZE_BYTES; omega
          · rw [hA]; unfold MAX_CONTENT_SIZE_BYTES; omega
        have hlast : (on_clipboard_change ws m1 t1).last_hash = some h := by
          rw [on_clipboard_change_some ws m1 t1 ty1 d1 hE1, if_neg hs1]
          by_cases hc : some (ClipboardContent.mk ty1 d1 t1).get_hash = ws.last_hash
          · rw [if_pos hc, ← hc]
            show some (d1.encode) = some h
            rw [h1]
          · rw [if_neg hc]
            show some (d1.encode) = some h
            rw [h1]
        have hcond : some ((ClipboardContent.mk ty2 d2 t2).get_hash) =
            (on_clipboard_change ws m1 t1).last_hash := by
          rw [hlast]
          show some (d2.encode) = some h
          rw [h2]
        rw [on_clipboard_change_some _ m2 t2 ty2 d2 hE2, if_neg hs2, if_pos hcond]

/-- C6 witness: feeding the fresh watcher the same text notification twice
accepts exactly one entry and the second notification changes nothing. -/
theorem adjacent_duplicate_suppression_witness :
    on_clipboard_change (on_clipboard_change wsEmpty mimeHi 1) mimeHi 2 =
      on_clipboard_change wsEmpty mimeHi 1 ∧
    (on_clipboard_change (on_clipboard_change wsEmpty mimeHi 1) mimeHi 2).accepted =
      wsEmpty.accepted + 1 := by
  have hthm := adjacent_duplicate_suppression wsEmpty mimeHi mimeHi 1 2
    (utf8Bytes "hi") (by decide) (by decide)
  exact ⟨hthm.1, hthm.2 (by decide)⟩

/-- C7: a notification whose extracted payload exceeds the 10 MiB ceiling
is discarded before the store is called, and a store whose entries all fit
under the ceiling keeps that property across any notification — so
oversized content never appears in the snapshot. -/
theorem oversized_rejection (ws : WatcherState) (m : MimeData) (t : Nat) :
    (∀ (ty : ContentType) (d : CData), extract_content m = some (ty, d) →
      estimate_content_size ty d > MAX_CONTENT_SIZE_BYTES →
      on_clipboard_change ws m t = ws) ∧
    ((∀ c ∈ ws.hist.get_history,
        estimate_content_size c.content_type c.data ≤ MAX_CONTENT_SIZE_BYTES) →
      ∀ c ∈ (on_clipboard_change ws m t).hist.get_history,
        estimate_content_size c.content_type c.data ≤ MAX_CONTENT_SIZE_BYTES) := by
  constructor
  · intro ty d hE hsz
    rw [on_clipboard_change_some ws m t ty d hE, if_pos hsz]
  · intro hall c hc
    cases hE : extract_content m with
    | none =>
      rw [on_clipboard_change_none ws m t hE] at hc
      exact hall c hc
    | some td =>
      obtain ⟨ty, d⟩ := td
      rw [on_clipboard_change_some ws m t ty d hE] at hc
      by_cases hsz : estimate_content_size ty d > MAX_CONTENT_SIZE_BYTES
      · rw [if_pos hsz] at hc
        exact hall c hc
      · rw [if_neg hsz] at hc
        by_cases hh : some (ClipboardContent.mk ty d t).get_hash = ws.last_hash
        · rw [if_pos hh] at hc
          exact hall c hc
        · rw [if_neg hh] at hc
          rcases mem_add_item ws.hist (ClipboardContent.mk ty d t) c hc with hcx | hcx
          · rw [hcx]
            exact Nat.le_of_not_lt hsz
          · exact hall c hcx

/-- C7 witness: the concrete oversized image notification leaves the fresh
watcher (and hence the snapshot) untouched. -/
theorem oversized_rejection_witness :
    on_clipboard_change wsEmpty bigMime 0 = wsEmpty :=
  (oversized_rejection wsEmpty bigMime 0).1 ContentType.IMAGE
    (CData.ofBytes (List.replicate 10485761 0)) rfl
    (by
      show (List.replicate 10485761 0).length > MAX_CONTENT_SIZE_BYTES
      rw [List.length_replicate]
      decide)

/-- C10: the fingerprint is computed from the payload alone and ignores the
content type, so two entries with equal payloads but different content
types hash alike, and add_item deduplicates the new one against the stored
one exactly as if they were the same entry. -/
theorem hash_ignores_content_type (ty1 ty2 : ContentType) (d : CData) (ts1 ts2 : Nat) :
    (ClipboardContent.mk ty1 d ts1).get_hash = (ClipboardContent.mk ty2 d ts2).get_hash ∧
    (∀ (hm : HistoryManager), hm.Inv → ∀ e ∈ hm.get_history, e.data = d →
      ((hm.add_item (ClipboardContent.mk ty2 d ts2)).get_history.head? =
          some (ClipboardContent.mk ty2 d ts2) ∧
        (hm.add_item (ClipboardContent.mk ty2 d ts2)).get_history.length =
          hm.get_history.length ∧
        ((hm.add_item (ClipboardContent.mk ty2 d ts2)).get_history.map
            ClipboardContent.get_hash).count
          (ClipboardContent.mk ty2 d ts2).get_hash = 1)) := by
  refine ⟨rfl, ?_⟩
  intro hm hinv e he hed
  have hmem : (ClipboardContent.mk ty2 d ts2).get_hash ∈
      hm.history.map ClipboardContent.get_hash := by
    refine List.mem_map.mpr ⟨e, he, ?_⟩
    show e.data.encode = d.encode
    rw [hed]
  exact add_item_promote_spec hm _ hinv hmem

/-- C10 witness: a RICH_TEXT entry with the payload of the TEXT entry
already in the concrete store is deduplicated against it. -/
theorem hash_ignores_content_type_witness :
    (ClipboardContent.mk ContentType.TEXT (CData.ofString "a") 0).get_hash =
      (ClipboardContent.mk ContentType.RICH_TEXT (CData.ofString "a") 7).get_hash ∧
    (hmPromote.add_item
        (ClipboardContent.mk ContentType.RICH_TEXT (CData.ofString "a") 7)).get_history.length =
      hmPromote.get_history.length := by
  have hthm := hash_ignores_content_type ContentType.TEXT ContentType.RICH_TEXT
    (CData.ofString "a") 0 7
  exact ⟨hthm.1, (hthm.2 hmPromote ⟨by decide, by decide⟩ sampleA (by decide) rfl).2.1⟩

/-- C3: across the capability sequence [true, false, false, false] the
revocation dialog is shown exactly once, on the granted-to-denied edge; and
the notification guard can only be reset by a tick that observes the
capability granted. -/
theorem revocation_fires_once (s : PermState)
    (h : s.monitoring_active = false ∨ s.initial_state = false) :
    (runTicks s [true, false, false, false]).2.map PermEvents.revocation_dialog =
      [false, true, false, false] ∧
    (∀ (s2 : PermState) (cap : Bool), s2.revocation_notified = true →
      (permission_tick cap s2).1.revocation_notified = false → cap = true) := by
  constructor
  · cases hA : s.monitoring_active with
    | false =>
      simp [runTicks, permission_tick, check_permission_revocation,
        handle_permission_loss, start_permission_monitoring,
        check_permission_status, hA]
    | true =>
      have hI : s.initial_state = false := by
        rcases h with h | h
        · rw [hA] at h; exact absurd h (by simp)
        · exact h
      simp [runTicks, permission_tick, check_permission_revocation,
        handle_permission_loss, start_permission_monitoring,
        check_permission_status, hA, hI]
  · intro s2 cap hn
    cases cap with
    | true => intro _; rfl
    | false =>
      intro hafter
      exfalso
      cases hMon : s2.monitoring_active with
      | true =>
        by_cases hB : s2.max_checks ≤ s2.check_count + 1 <;>
          simp [permission_tick, check_permission_status, hMon, hB, hn] at hafter
      | false =>
        cases hLast : s2.last_state with
        | true =>
          simp [permission_tick, check_permission_revocation,
            handle_permission_loss, start_permission_monitoring, hMon, hLast,
            hn] at hafter
        | false =>
          simp [permission_tick, check_permission_revocation, hMon, hLast,
            hn] at hafter

/-- C3 witness: from the concrete granted steady state the four-tick
simulation emits the revocation dialog exactly on the second tick. -/
theorem revocation_fires_once_witness :
    (runTicks permIdle [true, false, false, false]).2.map PermEvents.revocation_dialog =
      [false, true, false, false] :=
  (revocation_fires_once permIdle (Or.inl rfl)).1

/-- Invariant for the active-polling run on all-denied observations: while
active with a denied initial state, a 30-attempt budget and fewer than 30
used attempts, the remaining active checks are bounded and the run ends
inactive; once inactive with the capability last seen denied, no active
check ever happens again. -/
lemma poll_aux :
    ∀ (caps : List Bool), (∀ c ∈ caps, c = false) → ∀ (s : PermState),
      (s.monitoring_active = false → s.last_state = false →
        activeTickCount s caps = 0 ∧ (runTicks s caps).1.monitoring_active = false) ∧
      (s.monitoring_active = true → s.initial_state = false → s.max_checks = 30 →
        s.check_count < 30 →
        activeTickCount s caps ≤ 30 - s.check_count ∧
        (30 - s.check_count ≤ caps.length →
          (runTicks s caps).1.monitoring_active = false)) := by
  intro caps
  induction caps with
  | nil =>
    intro _ s
    constructor
    · intro hM _
      exact ⟨rfl, by simpa [runTicks] using hM⟩
    · intro _ _ _ hC
      refine ⟨Nat.zero_le _, ?_⟩
      intro hlen
      simp only [List.length_nil] at hlen
      omega
  | cons cap rest ih =>
    intro hall s
    have hcap : cap = false := hall cap (List.mem_cons_self _ _)
    have hall' : ∀ c ∈ rest, c = false := fun c hc => hall c (List.mem_cons_of_mem _ hc)
    subst hcap
    constructor
    · intro hM hL
      have hproj : (permission_tick false s).1.monitoring_active = false ∧
          (permission_tick false s).1.last_state = false := by
        simp [permission_tick, check_permission_revocation, hM, hL]
      have ihs := (ih hall' (permission_tick false s).1).1 hproj.1 hproj.2
      constructor
      · simp only [activeTickCount, hM, if_false, Bool.false_eq_true, ihs.1]
      · simp only [runTicks]
        exact ihs.2
    · intro hM hI hX hC
      by_cases hB : 30 ≤ s.check_count + 1
      · have hproj : (permission_tick false s).1.monitoring_active = false ∧
            (permission_tick false s).1.last_state = false := by
          simp [permission_tick, check_permission_status, hM, hI, hX, hB]
        have ihs := (ih hall' (permission_tick false s).1).1 hproj.1 hproj.2
        constructor
        · simp only [activeTickCount, hM, if_true, ihs.1]
          omega
        · intro _
          simp only [runTicks]
          exact ihs.2
      · have hproj : (permission_tick false s).1.monitoring_active = true ∧
            (permission_tick false s).1.initial_state = false ∧
            (permission_tick false s).1.max_checks = 30 ∧
            (permission_tick false s).1.check_count = s.check_count + 1 := by
          simp [permission_tick, check_permission_status, hM, hI, hX, hB]
        have ihs := (ih hall' (permission_tick false s).1).2 hproj.1 hproj.2.1
          hproj.2.2.1 (by omega)
        rw [hproj.2.2.2] at ihs
        constructor
        · simp only [activeTickCount, hM, if_true]
          have := ihs.1
          omega
        · intro hlen
          simp only [List.length_cons] at hlen
          simp only [runTicks]
          exact ihs.2 (by omega)

/-- C8: started from a passive state on a denied capability, active grant
polling performs at most 30 capability checks on any all-denied tick
sequence and is deactivated once 30 ticks have passed (falling back to the
passive mode); and a tick that observes a grant after an initially-denied
start stops active monitoring immediately with the restart dialog. -/
theorem bounded_grant_polling :
    (∀ (caps : List Bool), (∀ c ∈ caps, c = false) →
      ∀ (s0 : PermState), s0.monitoring_active = false →
        activeTickCount (start_permission_monitoring false s0) caps ≤ 30 ∧
        (30 ≤ caps.length →
          (runTicks (start_permission_monitoring false s0) caps).1.monitoring_active =
            false)) ∧
    (∀ (s : PermState), s.monitoring_active = true → s.initial_state = false →
      (permission_tick true s).1.monitoring_active = false ∧
      (permission_tick true s).2.restart_dialog = true) := by
  constructor
  · intro caps hall s0 h0
    have hproj : (start_permission_monitoring false s0).monitoring_active = true ∧
        (start_permission_monitoring false s0).initial_state = false ∧
        (start_permission_monitoring false s0).max_checks = 30 ∧
        (start_permission_monitoring false s0).check_count = 0 := by
      simp [start_permission_monitoring, h0]
    have haux := (poll_aux caps hall (start_permission_monitoring false s0)).2
      hproj.1 hproj.2.1 hproj.2.2.1 (by rw [hproj.2.2.2]; omega)
    rw [hproj.2.2.2] at haux
    exact ⟨haux.1, haux.2⟩
  · intro s hM hI
    constructor <;> simp [permission_tick, check_permission_status, hM, hI]

/-- C8 witness: from the concrete idle state, 30 all-denied ticks leave
active monitoring deactivated within the 30-check budget, and a granted
tick right after the start stops it immediately. -/
theorem bounded_grant_polling_witness :
    activeTickCount (start_permission_monitoring false permIdle)
      (List.replicate 30 false) ≤ 30 ∧
    (runTicks (start_permission_monitoring false permIdle)
      (List.replicate 30 false)).1.monitoring_active = false ∧
    (permission_tick true (start_permission_monitoring false permIdle)).1.monitoring_active =
      false := by
  have h1 := bounded_grant_polling.1 (List.replicate 30 false)
    (fun c hc => List.eq_of_mem_replicate hc) permIdle rfl
  have h2 := bounded_grant_polling.2 (start_permission_monitoring false permIdle) rfl rfl
  exact ⟨h1.1, h1.2 (by simp), h2.1⟩

end Kliply

